import Mathlib

/-!
Shallow embedding of the USBasp programming-session state machine
(`src/main.c`: `usbFunctionSetup`, `usbFunctionRead`, `usbFunctionWrite`)
and proofs about its session-level behaviour.

Machine-integer conventions of the AVR target (avr-gcc):
`uchar` is 8 bits, `unsigned int` is 16 bits, `unsigned long` is 32 bits.
All machine values are modelled as `Nat` with explicit `% 2^w` at every
assignment where the C code can truncate or wrap.
-/

namespace USBasp

/-- The programmer session mode, `prog_state` in the source.  The source
compares `prog_state` against the `PROG_STATE_*` constants only, so the
mode is embedded as a closed enumeration. -/
inductive ProgState
  | idle
  | readflash
  | readeeprom
  | writeflash
  | writeeeprom
  deriving DecidableEq, Repr

/-- Modelled from the spec: the opcode constants `USBASP_FUNC_*` live in
`usbasp.h`, which is not under `src/`; only their being distinct small
integers matters to `usbFunctionSetup`, and the values used here are the
USBasp wire-protocol opcode numbers. -/
def USBASP_FUNC_CONNECT : Nat := 1

def USBASP_FUNC_DISCONNECT : Nat := 2

def USBASP_FUNC_TRANSMIT : Nat := 3

def USBASP_FUNC_READFLASH : Nat := 4

def USBASP_FUNC_ENABLEPROG : Nat := 5

def USBASP_FUNC_WRITEFLASH : Nat := 6

def USBASP_FUNC_READEEPROM : Nat := 7

def USBASP_FUNC_WRITEEEPROM : Nat := 8

def USBASP_FUNC_SETLONGADDRESS : Nat := 9

def USBASP_FUNC_SETISPSCK : Nat := 10

/-- Modelled from the spec: `PROG_BLOCKFLAG_FIRST` is the
`FirstBlockOfMultiBlockWrite` bit of the block-flags nibble, declared in
`usbasp.h` (not under `src/`). -/
def PROG_BLOCKFLAG_FIRST : Nat := 1

/-- Modelled from the spec: `PROG_BLOCKFLAG_LAST` is the
`LastBlockOfMultiBlockWrite` bit of the block-flags nibble, declared in
`usbasp.h` (not under `src/`). -/
def PROG_BLOCKFLAG_LAST : Nat := 2

/-- The static session state of `src/main.c` (lines 27-37).
`prog_pagecounter` is a `uchar` (8 bits) while `prog_pagesize` is an
`unsigned int` (16 bits); this width mismatch is kept faithfully. -/
structure State where
  prog_state : ProgState
  prog_sck : Nat
  prog_address_newmode : Nat
  prog_address : Nat
  prog_nbytes : Nat
  prog_pagesize : Nat
  prog_blockflags : Nat
  prog_pagecounter : Nat
  replyBuffer : List Nat
  deriving DecidableEq, Repr

/-- Calls made to the target-programming transport (`isp.c`), recorded as
an event trace. -/
inductive Event
  | ispWriteFlash (address value pgmode : Nat)
  | ispFlushPage (address value : Nat)
  | ispWriteEEPROM (address value : Nat)
  deriving DecidableEq, Repr

/-- The all-zero power-on state (`mode = Idle`). -/
def state0 : State :=
  { prog_state := ProgState.idle
    prog_sck := 0
    prog_address_newmode := 0
    prog_address := 0
    prog_nbytes := 0
    prog_pagesize := 0
    prog_blockflags := 0
    prog_pagecounter := 0
    replyBuffer := List.replicate 8 0 }

/-- `usbFunctionSetup` (src/main.c lines 39-135).  `T` models
`ispTransmit`, `E` models the status byte returned by
`ispEnterProgrammingMode`; both only feed the reply buffer.  The data
bytes `d0 .. d7` are the 8-byte command descriptor.  Returns the reply
length `len` and the updated state. -/
def usbFunctionSetup (T : Nat → Nat) (E : Nat) (st : State)
    (d0 d1 d2 d3 d4 d5 d6 d7 : Nat) : Nat × State :=
  if d1 = USBASP_FUNC_CONNECT then
    -- SCK speed selection and ispConnect are external calls;
    -- the only state change is the compatibility address mode reset
    (0, { st with prog_address_newmode := 0 })
  else if d1 = USBASP_FUNC_DISCONNECT then
    (0, st)
  else if d1 = USBASP_FUNC_TRANSMIT then
    (4, { st with replyBuffer :=
      ((((st.replyBuffer.set 0 (T d2 % 256)).set 1 (T d3 % 256)).set 2
        (T d4 % 256)).set 3 (T d5 % 256)) })
  else if d1 = USBASP_FUNC_READFLASH then
    (0xff, { st with
      prog_address := if st.prog_address_newmode = 0 then
        ((d3 <<< 8) ||| d2) % 4294967296 else st.prog_address,
      prog_nbytes := ((d7 <<< 8) ||| d6) % 65536,
      prog_state := ProgState.readflash })
  else if d1 = USBASP_FUNC_READEEPROM then
    (0xff, { st with
      prog_address := if st.prog_address_newmode = 0 then
        ((d3 <<< 8) ||| d2) % 4294967296 else st.prog_address,
      prog_nbytes := ((d7 <<< 8) ||| d6) % 65536,
      prog_state := ProgState.readeeprom })
  else if d1 = USBASP_FUNC_ENABLEPROG then
    (1, { st with replyBuffer := st.replyBuffer.set 0 (E % 256) })
  else if d1 = USBASP_FUNC_WRITEFLASH then
    -- prog_pagesize = data[4]; prog_blockflags = data[5] & 0x0F;
    -- prog_pagesize += ((unsigned int) data[5] & 0xF0) << 4;
    let pagesize := (d4 % 65536 + ((d5 &&& 0xF0) <<< 4)) % 65536
    let blockflags := d5 &&& 0x0F
    (0xff, { st with
      prog_address := if st.prog_address_newmode = 0 then
        ((d3 <<< 8) ||| d2) % 4294967296 else st.prog_address,
      prog_pagesize := pagesize,
      prog_blockflags := blockflags,
      prog_pagecounter := if blockflags &&& PROG_BLOCKFLAG_FIRST ≠ 0 then
        pagesize % 256 else st.prog_pagecounter,
      prog_nbytes := ((d7 <<< 8) ||| d6) % 65536,
      prog_state := ProgState.writeflash })
  else if d1 = USBASP_FUNC_WRITEEEPROM then
    (0xff, { st with
      prog_address := if st.prog_address_newmode = 0 then
        ((d3 <<< 8) ||| d2) % 4294967296 else st.prog_address,
      prog_pagesize := 0,
      prog_blockflags := 0,
      prog_nbytes := ((d7 <<< 8) ||| d6) % 65536,
      prog_state := ProgState.writeeeprom })
  else if d1 = USBASP_FUNC_SETLONGADDRESS then
    -- prog_address = *((unsigned long*) &data[2]), little-endian load
    (0, { st with
      prog_address_newmode := 1,
      prog_address := (d2 ||| (d3 <<< 8) ||| (d4 <<< 16) ||| (d5 <<< 24)) % 4294967296 })
  else if d1 = USBASP_FUNC_SETISPSCK then
    (1, { st with prog_sck := d2 % 256, replyBuffer := st.replyBuffer.set 0 0 })
  else
    (0, st)

/-- The loop body of `usbFunctionRead` (src/main.c lines 148-155),
reading `len` bytes one at a time and advancing `prog_address`. -/
def readLoop (flash eeprom : Nat → Nat) : State → Nat → List Nat × State
  | st, 0 => ([], st)
  | st, len + 1 =>
    let b := if st.prog_state = ProgState.readflash then
      flash st.prog_address % 256 else eeprom st.prog_address % 256
    let r := readLoop flash eeprom
      { st with prog_address := (st.prog_address + 1) % 4294967296 } len
    (b :: r.1, r.2)

/-- `usbFunctionRead` (src/main.c lines 137-163).  `flash` and `eeprom`
model `ispReadFlash` and `ispReadEEPROM`.  Returns the byte count
returned to the transport, the bytes placed in the packet, and the
updated state. -/
def usbFunctionRead (flash eeprom : Nat → Nat) (st : State) (len : Nat) :
    Nat × List Nat × State :=
  if st.prog_state ≠ ProgState.readflash ∧ st.prog_state ≠ ProgState.readeeprom then
    (0xff, [], st)
  else
    let r := readLoop flash eeprom st len
    (len, r.1, if len < 8 then { r.2 with prog_state := ProgState.idle } else r.2)

/-- The target-side half of the `usbFunctionWrite` loop body
(src/main.c lines 199-213): decrement `prog_nbytes` (16-bit wrap), on
reaching zero go idle and possibly force the trailing page flush, then
increment `prog_address` (32-bit wrap).  The third component reports
whether `prog_nbytes` reached zero at this byte. -/
def writeStepFinish (st : State) (evs : List Event) (b : Nat) :
    State × List Event × Bool :=
  let st2 := { st with prog_nbytes := (st.prog_nbytes + 65535) % 65536 }
  if st2.prog_nbytes = 0 then
    ({ st2 with
        prog_state := ProgState.idle
        prog_address := (st2.prog_address + 1) % 4294967296 },
      evs ++ (if st2.prog_blockflags &&& PROG_BLOCKFLAG_LAST ≠ 0 ∧
          st2.prog_pagecounter ≠ st2.prog_pagesize then
        [Event.ispFlushPage st2.prog_address b] else []),
      true)
  else
    ({ st2 with prog_address := (st2.prog_address + 1) % 4294967296 }, evs, false)

/-- One iteration of the `usbFunctionWrite` loop (src/main.c lines
176-214) on the byte `b = data[i]`: the flash/EEPROM dispatch and page
bookkeeping of lines 178-197, followed by `writeStepFinish`. -/
def writeStep (st : State) (b : Nat) : State × List Event × Bool :=
  if st.prog_state = ProgState.writeflash then
    if st.prog_pagesize = 0 then
      writeStepFinish st [Event.ispWriteFlash st.prog_address b 1] b
    else
      -- prog_pagecounter-- is an 8-bit decrement
      let st1 := { st with prog_pagecounter := (st.prog_pagecounter + 255) % 256 }
      if st1.prog_pagecounter = 0 then
        writeStepFinish { st1 with prog_pagecounter := st1.prog_pagesize % 256 }
          [Event.ispWriteFlash st.prog_address b 0,
            Event.ispFlushPage st.prog_address b] b
      else
        writeStepFinish st1 [Event.ispWriteFlash st.prog_address b 0] b
  else
    writeStepFinish st [Event.ispWriteEEPROM st.prog_address b] b

/-- The whole `usbFunctionWrite` loop over a chunk, accumulating the
event trace and the sticky `retVal` flag. -/
def writeRun : State → List Nat → State × List Event × Bool
  | st, [] => (st, [], false)
  | st, b :: bs =>
    let s := writeStep st b
    let r := writeRun s.1 bs
    (r.1, s.2.1 ++ r.2.1, s.2.2 || r.2.2)

/-- `usbFunctionWrite` (src/main.c lines 165-217).  Returns `retVal`
(`0xff` on a state mismatch, `1` once `prog_nbytes` reached zero during
the call, `0` otherwise), the updated state, and the event trace. -/
def usbFunctionWrite (st : State) (data : List Nat) : Nat × State × List Event :=
  if st.prog_state ≠ ProgState.writeflash ∧ st.prog_state ≠ ProgState.writeeeprom then
    (0xff, st, [])
  else
    ((if (writeRun st data).2.2 then 1 else 0),
      (writeRun st data).1, (writeRun st data).2.1)

/-- A whole write session: the transport calls `usbFunctionWrite` once
per chunk; the traces are concatenated. -/
def writeSession : State → List (List Nat) → State × List Event
  | st, [] => (st, [])
  | st, c :: cs =>
    let w := usbFunctionWrite st c
    let r := writeSession w.2.1 cs
    (r.1, w.2.2 ++ r.2)

/-- A whole read session: the transport calls `usbFunctionRead` once per
requested chunk length; the chunks are concatenated. -/
def readSession (flash eeprom : Nat → Nat) : State → List Nat → List Nat × State
  | st, [] => ([], st)
  | st, l :: ls =>
    let w := usbFunctionRead flash eeprom st l
    let r := readSession flash eeprom w.2.2 ls
    (w.2.1 ++ r.1, r.2)

/-- Number of `ispFlushPage` invocations in a trace. -/
def flushCount (evs : List Event) : Nat :=
  evs.countP fun e => match e with
    | Event.ispFlushPage _ _ => true
    | _ => false

/-- The 1-based byte positions (counted from session start) at which
`ispFlushPage` invocations happen, one entry per invocation. -/
def flushPositions : State → List Nat → Nat → List Nat
  | _, [], _ => []
  | st, b :: bs, j =>
    List.replicate (flushCount (writeStep st b).2.1) j ++
      flushPositions (writeStep st b).1 bs (j + 1)

/-- The trace of an uninterrupted run of the EEPROM write path:
consecutive `ispWriteEEPROM` calls with the address advancing by one
(mod 2^32) per byte. -/
def writeEEPROMTrace : Nat → List Nat → List Event
  | _, [] => []
  | a, b :: bs =>
    Event.ispWriteEEPROM a b :: writeEEPROMTrace ((a + 1) % 4294967296) bs

example :
    flushCount (writeSession
      (usbFunctionSetup (fun x => x) 0 state0 0 USBASP_FUNC_WRITEFLASH 0 0 2 1 4 0).2
      [[10, 11], [12, 13]]).2 = 2 := by decide

example :
    flushPositions
      (usbFunctionSetup (fun x => x) 0 state0 0 USBASP_FUNC_WRITEFLASH 0 0 2 1 4 0).2
      [10, 11, 12, 13] 1 = [2, 4] := by decide

/-! ### Field characterizations of one write-loop iteration -/

theorem writeStepFinish_nbytes (st : State) (evs : List Event) (b : Nat) :
    ((writeStepFinish st evs b).1).prog_nbytes = (st.prog_nbytes + 65535) % 65536 := by
  simp only [writeStepFinish]
  split <;> rfl

theorem writeStepFinish_address (st : State) (evs : List Event) (b : Nat) :
    ((writeStepFinish st evs b).1).prog_address = (st.prog_address + 1) % 4294967296 := by
  simp only [writeStepFinish]
  split <;> rfl

theorem writeStepFinish_state (st : State) (evs : List Event) (b : Nat) :
    ((writeStepFinish st evs b).1).prog_state =
      if (st.prog_nbytes + 65535) % 65536 = 0 then ProgState.idle
      else st.prog_state := by
  simp only [writeStepFinish]
  split <;> rename_i h <;> simp [h]

theorem writeStepFinish_pagesize (st : State) (evs : List Event) (b : Nat) :
    ((writeStepFinish st evs b).1).prog_pagesize = st.prog_pagesize := by
  simp only [writeStepFinish]
  split <;> rfl

theorem writeStepFinish_blockflags (st : State) (evs : List Event) (b : Nat) :
    ((writeStepFinish st evs b).1).prog_blockflags = st.prog_blockflags := by
  simp only [writeStepFinish]
  split <;> rfl

theorem writeStepFinish_pagecounter (st : State) (evs : List Event) (b : Nat) :
    ((writeStepFinish st evs b).1).prog_pagecounter = st.prog_pagecounter := by
  simp only [writeStepFinish]
  split <;> rfl

theorem writeStepFinish_flag (st : State) (evs : List Event) (b : Nat) :
    ((writeStepFinish st evs b).2.2 = true) ↔ (st.prog_nbytes + 65535) % 65536 = 0 := by
  simp only [writeStepFinish]
  split <;> rename_i h <;> simp [h]

theorem writeStepFinish_events (st : State) (evs : List Event) (b : Nat) :
    (writeStepFinish st evs b).2.1 = evs ++
      (if (st.prog_nbytes + 65535) % 65536 = 0 ∧
          st.prog_blockflags &&& PROG_BLOCKFLAG_LAST ≠ 0 ∧
          st.prog_pagecounter ≠ st.prog_pagesize then
        [Event.ispFlushPage st.prog_address b] else []) := by
  simp only [writeStepFinish]
  split <;> rename_i h <;> simp [h]

theorem writeStep_nbytes (st : State) (b : Nat) :
    ((writeStep st b).1).prog_nbytes = (st.prog_nbytes + 65535) % 65536 := by
  simp only [writeStep]
  split
  · split
    · simp [writeStepFinish_nbytes]
    · split <;> simp [writeStepFinish_nbytes]
  · simp [writeStepFinish_nbytes]

theorem writeStep_address (st : State) (b : Nat) :
    ((writeStep st b).1).prog_address = (st.prog_address + 1) % 4294967296 := by
  simp only [writeStep]
  split
  · split
    · simp [writeStepFinish_address]
    · split <;> simp [writeStepFinish_address]
  · simp [writeStepFinish_address]

theorem writeStep_state (st : State) (b : Nat) :
    ((writeStep st b).1).prog_state =
      if (st.prog_nbytes + 65535) % 65536 = 0 then ProgState.idle
      else st.prog_state := by
  simp only [writeStep]
  split
  · split
    · simp [writeStepFinish_state]
    · split <;> simp [writeStepFinish_state]
  · simp [writeStepFinish_state]

theorem writeStep_pagesize (st : State) (b : Nat) :
    ((writeStep st b).1).prog_pagesize = st.prog_pagesize := by
  simp only [writeStep]
  split
  · split
    · simp [writeStepFinish_pagesize]
    · split <;> simp [writeStepFinish_pagesize]
  · simp [writeStepFinish_pagesize]

theorem writeStep_blockflags (st : State) (b : Nat) :
    ((writeStep st b).1).prog_blockflags = st.prog_blockflags := by
  simp only [writeStep]
  split
  · split
    · simp [writeStepFinish_blockflags]
    · split <;> simp [writeStepFinish_blockflags]
  · simp [writeStepFinish_blockflags]

theorem writeStep_flag (st : State) (b : Nat) :
    ((writeStep st b).2.2 = true) ↔ (st.prog_nbytes + 65535) % 65536 = 0 := by
  simp only [writeStep]
  split
  · split
    · simp [writeStepFinish_flag]
    · split <;> simp [writeStepFinish_flag]
  · simp [writeStepFinish_flag]

theorem writeStep_pagecounter_flash (st : State) (b : Nat)
    (hm : st.prog_state = ProgState.writeflash) (hp : st.prog_pagesize ≠ 0) :
    ((writeStep st b).1).prog_pagecounter =
      if (st.prog_pagecounter + 255) % 256 = 0 then st.prog_pagesize % 256
      else (st.prog_pagecounter + 255) % 256 := by
  simp only [writeStep, hm, hp, reduceIte, if_neg]
  split <;> rename_i h <;> simp_all [writeStepFinish_pagecounter]

theorem writeStep_pagecounter_other (st : State) (b : Nat)
    (hm : st.prog_state ≠ ProgState.writeflash ∨ st.prog_pagesize = 0) :
    ((writeStep st b).1).prog_pagecounter = st.prog_pagecounter := by
  simp only [writeStep]
  split
  · rename_i hwf
    split
    · rw [writeStepFinish_pagecounter]
    · rename_i hps
      rcases hm with hm | hm
      · exact absurd hwf hm
      · exact absurd hm hps
  · rw [writeStepFinish_pagecounter]

theorem writeStep_events_eeprom (st : State) (b : Nat)
    (hm : st.prog_state ≠ ProgState.writeflash) :
    (writeStep st b).2.1 = [Event.ispWriteEEPROM st.prog_address b] ++
      (if (st.prog_nbytes + 65535) % 65536 = 0 ∧
          st.prog_blockflags &&& PROG_BLOCKFLAG_LAST ≠ 0 ∧
          st.prog_pagecounter ≠ st.prog_pagesize then
        [Event.ispFlushPage st.prog_address b] else []) := by
  simp only [writeStep, hm, if_neg, reduceIte, writeStepFinish_events]

theorem writeStep_events_flash_flush (st : State) (b : Nat)
    (hm : st.prog_state = ProgState.writeflash) (hp : st.prog_pagesize ≠ 0)
    (hc : (st.prog_pagecounter + 255) % 256 = 0) :
    (writeStep st b).2.1 =
      [Event.ispWriteFlash st.prog_address b 0,
        Event.ispFlushPage st.prog_address b] ++
      (if (st.prog_nbytes + 65535) % 65536 = 0 ∧
          st.prog_blockflags &&& PROG_BLOCKFLAG_LAST ≠ 0 ∧
          st.prog_pagesize % 256 ≠ st.prog_pagesize then
        [Event.ispFlushPage st.prog_address b] else []) := by
  simp only [writeStep, hm, if_pos, hp, if_neg, reduceIte]
  rw [if_pos (by simpa using hc)]
  simp [writeStepFinish_events]

theorem writeStep_events_flash_noflush (st : State) (b : Nat)
    (hm : st.prog_state = ProgState.writeflash) (hp : st.prog_pagesize ≠ 0)
    (hc : (st.prog_pagecounter + 255) % 256 ≠ 0) :
    (writeStep st b).2.1 = [Event.ispWriteFlash st.prog_address b 0] ++
      (if (st.prog_nbytes + 65535) % 65536 = 0 ∧
          st.prog_blockflags &&& PROG_BLOCKFLAG_LAST ≠ 0 ∧
          (st.prog_pagecounter + 255) % 256 ≠ st.prog_pagesize then
        [Event.ispFlushPage st.prog_address b] else []) := by
  simp only [writeStep, hm, if_pos, hp, if_neg, reduceIte]
  rw [if_neg (by simpa using hc)]
  simp [writeStepFinish_events]

/-! ### Run-level lemmas for the write engine -/

theorem writeRun_append (xs : List Nat) :
    ∀ (st : State) (ys : List Nat),
    writeRun st (xs ++ ys) =
      ((writeRun (writeRun st xs).1 ys).1,
        (writeRun st xs).2.1 ++ (writeRun (writeRun st xs).1 ys).2.1,
        (writeRun st xs).2.2 || (writeRun (writeRun st xs).1 ys).2.2) := by
  induction xs with
  | nil => intro st ys; simp [writeRun]
  | cons b bs ih =>
    intro st ys
    simp [writeRun, ih, Bool.or_assoc]

theorem writeRun_nbytes (bs : List Nat) :
    ∀ st : State, st.prog_nbytes < 65536 →
    (writeRun st bs).1.prog_nbytes =
      (st.prog_nbytes + 65535 * bs.length) % 65536 := by
  induction bs with
  | nil =>
    intro st h
    simp only [writeRun, List.length_nil]
    omega
  | cons b bs ih =>
    intro st h
    simp only [writeRun, List.length_cons]
    rw [ih (writeStep st b).1 (by rw [writeStep_nbytes]; omega), writeStep_nbytes]
    omega

theorem writeRun_address (bs : List Nat) :
    ∀ st : State, st.prog_address < 4294967296 →
    (writeRun st bs).1.prog_address =
      (st.prog_address + bs.length) % 4294967296 := by
  induction bs with
  | nil =>
    intro st h
    simp only [writeRun, List.length_nil]
    omega
  | cons b bs ih =>
    intro st h
    simp only [writeRun, List.length_cons]
    rw [ih (writeStep st b).1 (by rw [writeStep_address]; omega), writeStep_address]
    omega

theorem writeRun_pagesize (bs : List Nat) :
    ∀ st : State, (writeRun st bs).1.prog_pagesize = st.prog_pagesize := by
  induction bs with
  | nil => intro st; rfl
  | cons b bs ih =>
    intro st
    simp only [writeRun]
    rw [ih, writeStep_pagesize]

theorem writeRun_blockflags (bs : List Nat) :
    ∀ st : State, (writeRun st bs).1.prog_blockflags = st.prog_blockflags := by
  induction bs with
  | nil => intro st; rfl
  | cons b bs ih =>
    intro st
    simp only [writeRun]
    rw [ih, writeStep_blockflags]

/-- The mode after a chunk that does not overrun `prog_nbytes`: it flips
to `Idle` exactly when the chunk consumes the last remaining byte. -/
theorem writeRun_mode (bs : List Nat) :
    ∀ st : State, st.prog_nbytes < 65536 → bs.length ≤ st.prog_nbytes →
    (writeRun st bs).1.prog_state =
      if bs.length = st.prog_nbytes ∧ 0 < st.prog_nbytes then ProgState.idle
      else st.prog_state := by
  induction bs with
  | nil =>
    intro st h hlen
    simp only [writeRun, List.length_nil]
    split <;> rename_i hc
    · omega
    · rfl
  | cons b bs ih =>
    intro st h hlen
    simp only [List.length_cons] at hlen ⊢
    simp only [writeRun]
    rw [ih (writeStep st b).1 (by rw [writeStep_nbytes]; omega)
      (by rw [writeStep_nbytes]; omega)]
    rw [writeStep_nbytes, writeStep_state]
    split <;> split <;> (try split) <;> first | rfl | (exfalso; omega)

/-- `retVal` characterisation: the completion flag is raised exactly when
the remaining-byte counter hits zero during the chunk. -/
theorem writeRun_flag (bs : List Nat) :
    ∀ st : State, st.prog_nbytes < 65536 → bs.length ≤ 65535 →
    ((writeRun st bs).2.2 = true ↔
      0 < st.prog_nbytes ∧ st.prog_nbytes ≤ bs.length) := by
  induction bs with
  | nil =>
    intro st h hlen
    simp only [writeRun, List.length_nil]
    simp
    omega
  | cons b bs ih =>
    intro st h hlen
    simp only [List.length_cons] at hlen ⊢
    simp only [writeRun, Bool.or_eq_true]
    rw [writeStep_flag,
      ih (writeStep st b).1 (by rw [writeStep_nbytes]; omega) (by omega),
      writeStep_nbytes]
    omega

theorem flushCount_append (xs ys : List Event) :
    flushCount (xs ++ ys) = flushCount xs + flushCount ys := by
  simp [flushCount, List.countP_append]

/-- The number of flush events of a run equals the number of recorded
flush positions, whatever the start index. -/
theorem flushCount_run (bs : List Nat) :
    ∀ (st : State) (j : Nat),
    flushCount (writeRun st bs).2.1 = (flushPositions st bs j).length := by
  induction bs with
  | nil => intro st j; rfl
  | cons b bs ih =>
    intro st j
    simp only [writeRun, flushPositions, flushCount_append, List.length_append,
      List.length_replicate]
    rw [ih]

/-- A session whose chunks are all empty neither moves the state nor
emits events. -/
theorem writeSession_empty (cs : List (List Nat)) :
    ∀ st : State, (∀ c ∈ cs, c = []) → writeSession st cs = (st, []) := by
  induction cs with
  | nil => intro st _; rfl
  | cons c cs ih =>
    intro st hc
    have h0 : c = [] := hc c (List.mem_cons_self c cs)
    subst h0
    have hw : usbFunctionWrite st [] = (if st.prog_state ≠ ProgState.writeflash ∧
        st.prog_state ≠ ProgState.writeeeprom then 0xff else 0, st, []) := by
      simp only [usbFunctionWrite, writeRun]
      split <;> simp
    simp only [writeSession, hw]
    rw [ih st (fun x hx => hc x (List.mem_cons_of_mem _ hx))]
    rfl

/-- Chunking is irrelevant: as long as the chunks do not overrun the
declared byte count, a session of `usbFunctionWrite` calls produces the
same final state and the same trace as one flat run over the
concatenated payload. -/
theorem writeSession_eq_run (cs : List (List Nat)) :
    ∀ st : State,
    (st.prog_state = ProgState.writeflash ∨ st.prog_state = ProgState.writeeeprom) →
    st.prog_nbytes < 65536 → cs.flatten.length ≤ st.prog_nbytes →
    writeSession st cs = ((writeRun st cs.flatten).1, (writeRun st cs.flatten).2.1) := by
  induction cs with
  | nil => intro st _ _ _; rfl
  | cons c cs ih =>
    intro st hm hn hlen
    simp only [List.flatten_cons, List.length_append] at hlen ⊢
    have hw : usbFunctionWrite st c =
        ((if (writeRun st c).2.2 then 1 else 0),
          (writeRun st c).1, (writeRun st c).2.1) := by
      simp only [usbFunctionWrite]
      rcases hm with hm | hm <;> rw [if_neg (by simp [hm])]
    simp only [writeSession, hw, writeRun_append]
    by_cases hend : c.length = st.prog_nbytes ∧ 0 < st.prog_nbytes
    · -- the chunk consumed the last byte: every later chunk is empty
      have hflat : cs.flatten.length = 0 := by omega
      have hrest : cs.flatten = [] := List.length_eq_zero.mp hflat
      have hcs : ∀ x ∈ cs, x = [] := List.flatten_eq_nil_iff.mp hrest
      rw [writeSession_empty cs _ hcs]
      simp [hrest, writeRun]
    · -- the session is still open after this chunk
      have hmode : (writeRun st c).1.prog_state = st.prog_state := by
        rw [writeRun_mode c st hn (by omega)]
        rw [if_neg hend]
      have hnb : (writeRun st c).1.prog_nbytes = st.prog_nbytes - c.length := by
        rw [writeRun_nbytes c st hn]
        omega
      rw [ih (writeRun st c).1 (by rw [hmode]; exact hm)
        (by rw [hnb]; omega) (by rw [hnb]; omega)]

/-! ### The paged-flash flush-position characterisation -/

theorem replicate_ite (A : Prop) [Decidable A] (j : Nat) :
    List.replicate (if A then 1 else 0) j = if A then [j] else [] := by
  split <;> rfl

theorem one_mod_eq_iff {P c : Nat} (hc : 0 < c) (hcP : c ≤ P) :
    1 % P = c % P ↔ c = 1 := by
  constructor
  · intro h
    rcases Nat.lt_or_ge c P with hlt | hge
    · rw [Nat.mod_eq_of_lt hlt] at h
      rcases Nat.lt_or_ge 1 P with h1 | h1
      · rw [Nat.mod_eq_of_lt h1] at h
        omega
      · omega
    · have h0 : c % P = 0 := by
        rw [show c = P from by omega]
        exact Nat.mod_self P
      rw [h0] at h
      have hdvd : P ∣ 1 := Nat.dvd_of_mod_eq_zero h
      have hp1 : P = 1 := Nat.dvd_one.mp hdvd
      omega
  · intro h
    rw [h]

/-- Stepping the page counter: byte `m + 1` hits the counter value `c`
exactly when byte `m` hits the successor counter value (`P` after a
reset at `c = 1`, else `c - 1`). -/
theorem mod_shift_iff (P : Nat) (hP : 0 < P) (m c : Nat) (hc : 0 < c) (hcP : c ≤ P) :
    (m + 1) % P = c % P ↔ m % P = (if c = 1 then P else c - 1) % P := by
  by_cases h1 : c = 1
  · subst h1
    rw [if_pos rfl, Nat.mod_self]
    constructor
    · intro h
      have h2 : m % P = 0 % P := Nat.ModEq.add_right_cancel' 1 h
      simpa using h2
    · intro h
      have h2 : m % P = 0 % P := by simpa using h
      have h3 := Nat.ModEq.add_right 1 h2
      simpa using h3
  · rw [if_neg h1]
    have hcc : c - 1 + 1 = c := by omega
    constructor
    · intro h
      have h2 : (m + 1) % P = (c - 1 + 1) % P := by rw [hcc]; exact h
      exact Nat.ModEq.add_right_cancel' 1 h2
    · intro h
      have h2 := Nat.ModEq.add_right 1 h
      rw [hcc] at h2
      exact h2

/-- Master characterisation of a paged flash run when the page size fits
the 8-bit counter (`P < 256`): starting with `pageCounter = c`, the
counter-triggered flushes land on the byte positions congruent to `c`
modulo `P`, and the only other flush is the forced one when the transfer
completes on a partially filled page with the last-block flag set. -/
theorem flashRun_positions (P : Nat) (hP : 0 < P) (hP' : P < 256) :
    ∀ (bs : List Nat) (st : State) (c j : Nat),
    st.prog_state = ProgState.writeflash →
    st.prog_pagesize = P →
    st.prog_pagecounter = c → 0 < c → c ≤ P →
    st.prog_nbytes < 65536 → bs.length ≤ st.prog_nbytes →
    flushPositions st bs j =
      ((List.range bs.length).filterMap fun i =>
        if (i + 1) % P = c % P then some (j + i) else none) ++
      (if bs.length = st.prog_nbytes ∧ 0 < st.prog_nbytes ∧
          st.prog_blockflags &&& PROG_BLOCKFLAG_LAST ≠ 0 ∧
          ¬ st.prog_nbytes % P = c % P then
        [j + st.prog_nbytes - 1] else []) := by
  intro bs
  induction bs with
  | nil =>
    intro st c j _ _ _ _ _ _ hlen
    simp only [List.length_nil] at hlen ⊢
    simp only [flushPositions, List.range_zero, List.filterMap_nil, List.nil_append]
    rw [if_neg]
    rintro ⟨h1, h2, _⟩
    omega
  | cons b bs ih =>
    intro st c j hm hps hpc hc hcP hn hlen
    simp only [List.length_cons] at hlen ⊢
    have hn1 : 1 ≤ st.prog_nbytes := by omega
    have hps0 : st.prog_pagesize ≠ 0 := by omega
    have hcnt : flushCount (writeStep st b).2.1 =
        (if c = 1 then 1 else 0) +
        (if st.prog_nbytes = 1 ∧
            st.prog_blockflags &&& PROG_BLOCKFLAG_LAST ≠ 0 ∧ ¬ c = 1 then
          1 else 0) := by
      by_cases h1 : c = 1
      · rw [writeStep_events_flash_flush st b hm hps0 (by omega)]
        rw [if_neg (by rw [hps]; intro hx; exact hx.2.2 (by omega))]
        rw [if_pos h1, if_neg (fun hx => hx.2.2 h1)]
        rfl
      · rw [writeStep_events_flash_noflush st b hm hps0 (by omega)]
        rw [if_neg h1]
        by_cases h2 : st.prog_nbytes = 1 ∧
            st.prog_blockflags &&& PROG_BLOCKFLAG_LAST ≠ 0
        · rw [if_pos ⟨by omega, h2.2, by rw [hpc, hps]; omega⟩,
            if_pos ⟨h2.1, h2.2, h1⟩]
          rfl
        · rw [if_neg (fun hx => h2 ⟨by omega, hx.2.1⟩),
            if_neg (fun hx => h2 ⟨hx.1, hx.2.1⟩)]
          rfl
    have hpc' : (writeStep st b).1.prog_pagecounter =
        (if c = 1 then P else c - 1) := by
      rw [writeStep_pagecounter_flash st b hm hps0, hpc, hps]
      by_cases h1 : c = 1
      · rw [if_pos (by omega), if_pos h1]
        omega
      · rw [if_neg (by omega), if_neg h1]
        omega
    by_cases hnn : st.prog_nbytes = 1
    · -- this byte completes the transfer, so nothing follows it
      have hbs : bs = [] := List.length_eq_zero.mp (by omega)
      subst hbs
      simp only [flushPositions, List.append_nil, List.length_nil, Nat.zero_add]
      rw [hcnt, List.replicate_add, replicate_ite, replicate_ite]
      rw [show List.range 1 = [0] from by decide]
      by_cases h1 : c = 1
      · rw [@List.filterMap_cons_some Nat Nat
            (fun i => if (i + 1) % P = c % P then some (j + i) else none) 0 [] (j + 0)
            (by simp only [Nat.zero_add]
                rw [if_pos ((one_mod_eq_iff hc hcP).mpr h1)])]
        rw [if_pos h1, if_neg (fun hx => hx.2.2 h1)]
        rw [if_neg (fun hx => hx.2.2.2 (by rw [hnn, h1]))]
        simp
      · rw [@List.filterMap_cons_none Nat Nat
            (fun i => if (i + 1) % P = c % P then some (j + i) else none) 0 []
            (by simp only [Nat.zero_add]
                rw [if_neg (fun hx => h1 ((one_mod_eq_iff hc hcP).mp hx))])]
        rw [if_neg h1]
        simp only [List.filterMap_nil, List.nil_append, List.append_nil]
        refine if_congr ?_ (congrArg (fun x => [x]) (by omega)) rfl
        constructor
        · rintro ⟨ha, hl, hcc⟩
          refine ⟨by omega, by omega, hl, fun hx => hcc ?_⟩
          apply (one_mod_eq_iff hc hcP).mp
          rw [hnn] at hx
          exact hx
        · rintro ⟨ha, hb, hl, hd⟩
          exact ⟨hnn, hl, h1⟩
    · -- the transfer continues: the induction hypothesis applies
      have hn2 : 2 ≤ st.prog_nbytes := by omega
      have hncomp : (st.prog_nbytes + 65535) % 65536 ≠ 0 := by omega
      have hm' : (writeStep st b).1.prog_state = ProgState.writeflash := by
        rw [writeStep_state, if_neg hncomp]
        exact hm
      have hps' : (writeStep st b).1.prog_pagesize = P := by
        rw [writeStep_pagesize]
        exact hps
      have hnb' : (writeStep st b).1.prog_nbytes = st.prog_nbytes - 1 := by
        rw [writeStep_nbytes]
        omega
      have hbf' : (writeStep st b).1.prog_blockflags = st.prog_blockflags :=
        writeStep_blockflags st b
      have hrec := ih (writeStep st b).1 (if c = 1 then P else c - 1) (j + 1)
        hm' hps' hpc' (by split <;> omega) (by split <;> omega)
        (by rw [hnb']; omega) (by rw [hnb']; omega)
      rw [hnb', hbf'] at hrec
      simp only [flushPositions]
      rw [hrec, hcnt, List.replicate_add, replicate_ite, replicate_ite]
      rw [if_neg (fun hx : st.prog_nbytes = 1 ∧
          st.prog_blockflags &&& PROG_BLOCKFLAG_LAST ≠ 0 ∧ ¬ c = 1 => hnn hx.1),
        List.append_nil]
      rw [List.range_succ_eq_map]
      have hmapeq : List.filterMap
          (fun i => if (i + 1) % P = (if c = 1 then P else c - 1) % P then
            some (j + 1 + i) else none) (List.range bs.length) =
          List.filterMap
            ((fun i => if (i + 1) % P = c % P then some (j + i) else none) ∘
              Nat.succ) (List.range bs.length) := by
        apply List.filterMap_congr
        intro i _
        simp only [Function.comp_apply, Nat.succ_eq_add_one]
        exact (if_congr (mod_shift_iff P hP (i + 1) c hc hcP)
          (congrArg some (by omega)) rfl).symm
      have htaileq : (if bs.length = st.prog_nbytes - 1 ∧
          0 < st.prog_nbytes - 1 ∧
          st.prog_blockflags &&& PROG_BLOCKFLAG_LAST ≠ 0 ∧
          ¬ (st.prog_nbytes - 1) % P = (if c = 1 then P else c - 1) % P then
            [j + 1 + (st.prog_nbytes - 1) - 1] else []) =
          (if bs.length + 1 = st.prog_nbytes ∧ 0 < st.prog_nbytes ∧
            st.prog_blockflags &&& PROG_BLOCKFLAG_LAST ≠ 0 ∧
            ¬ st.prog_nbytes % P = c % P then
            [j + st.prog_nbytes - 1] else []) := by
        refine if_congr ?_ (congrArg (fun x => [x]) (by omega)) rfl
        constructor
        · rintro ⟨ha, hb, hl, hd⟩
          refine ⟨by omega, by omega, hl, fun hx => hd ?_⟩
          apply (mod_shift_iff P hP (st.prog_nbytes - 1) c hc hcP).mp
          rw [show st.prog_nbytes - 1 + 1 = st.prog_nbytes from by omega]
          exact hx
        · rintro ⟨ha, hb, hl, hd⟩
          refine ⟨by omega, by omega, hl, fun hx => hd ?_⟩
          rw [show st.prog_nbytes = st.prog_nbytes - 1 + 1 from by omega]
          exact (mod_shift_iff P hP (st.prog_nbytes - 1) c hc hcP).mpr hx
      by_cases h1 : c = 1
      · rw [@List.filterMap_cons_some Nat Nat
            (fun i => if (i + 1) % P = c % P then some (j + i) else none) 0
            (List.map Nat.succ (List.range bs.length)) (j + 0)
            (by simp only [Nat.zero_add]
                rw [if_pos ((one_mod_eq_iff hc hcP).mpr h1)])]
        rw [List.filterMap_map, if_pos h1]
        simp only [List.singleton_append, List.cons_append, Nat.add_zero]
        congr 1
        rw [hmapeq, htaileq, List.nil_append]
      · rw [@List.filterMap_cons_none Nat Nat
            (fun i => if (i + 1) % P = c % P then some (j + i) else none) 0
            (List.map Nat.succ (List.range bs.length))
            (by simp only [Nat.zero_add]
                rw [if_neg (fun hx => h1 ((one_mod_eq_iff hc hcP).mp hx))])]
        rw [List.filterMap_map, if_neg h1, List.nil_append]
        rw [hmapeq, htaileq]

/-- With the counter starting at a full page (`c = P`), the flush
positions `1 + i` with `(i + 1) ≡ P ≡ 0 (mod P)` are exactly the positive
multiples of `P`. -/
theorem filterMap_multiples (P : Nat) (hP : 0 < P) :
    ∀ N : Nat,
    (List.range N).filterMap
      (fun i => if (i + 1) % P = P % P then some (1 + i) else none) =
    (List.range (N / P)).map (fun k => (k + 1) * P) := by
  intro N
  induction N with
  | zero => simp
  | succ n ihn =>
    rw [List.range_succ, List.filterMap_append, ihn, Nat.succ_div]
    by_cases hd : P ∣ n + 1
    · rw [if_pos hd]
      have e1 : (n + 1) / P * P = n + 1 := Nat.div_mul_cancel hd
      have e2 : (n + 1) / P = n / P + 1 := by rw [Nat.succ_div, if_pos hd]
      have e3 : (n / P + 1) * P = n + 1 := by rw [← e2]; exact e1
      rw [@List.filterMap_cons_some Nat Nat
        (fun i => if (i + 1) % P = P % P then some (1 + i) else none) n [] (1 + n)
        (by show (if (n + 1) % P = P % P then some (1 + n) else none) = some (1 + n)
            rw [if_pos (by rw [Nat.mod_self]; exact Nat.mod_eq_zero_of_dvd hd)])]
      rw [List.range_succ, List.map_append, List.filterMap_nil]
      simp only [List.map_cons, List.map_nil]
      congr 2
      omega
    · rw [if_neg hd]
      rw [@List.filterMap_cons_none Nat Nat
        (fun i => if (i + 1) % P = P % P then some (1 + i) else none) n []
        (by show (if (n + 1) % P = P % P then some (1 + n) else none) = none
            rw [if_neg (by
              rw [Nat.mod_self]
              intro hx
              exact hd (Nat.dvd_of_mod_eq_zero hx))])]
      simp

/-- The state update performed by the `USBASP_FUNC_WRITEFLASH` branch of
`usbFunctionSetup` (src/main.c lines 91-104). -/
theorem usbFunctionSetup_writeflash (T : Nat → Nat) (E : Nat) (st : State)
    (d0 d2 d3 d4 d5 d6 d7 : Nat) :
    (usbFunctionSetup T E st d0 USBASP_FUNC_WRITEFLASH d2 d3 d4 d5 d6 d7).2 =
    { st with
      prog_address := if st.prog_address_newmode = 0 then
        ((d3 <<< 8) ||| d2) % 4294967296 else st.prog_address,
      prog_pagesize := (d4 % 65536 + ((d5 &&& 0xF0) <<< 4)) % 65536,
      prog_blockflags := d5 &&& 0x0F,
      prog_pagecounter := if (d5 &&& 0x0F) &&& PROG_BLOCKFLAG_FIRST ≠ 0 then
        ((d4 % 65536 + ((d5 &&& 0xF0) <<< 4)) % 65536) % 256
        else st.prog_pagecounter,
      prog_nbytes := ((d7 <<< 8) ||| d6) % 65536,
      prog_state := ProgState.writeflash } := rfl

/-- Decoded session fields after a WriteFlash command with a small page
size (`P < 256`) and the first-block flag set. -/
theorem setup_writeflash_fields (T : Nat → Nat) (E : Nat) (st : State)
    (d0 d2 d3 d4 d5 d6 d7 P K : Nat)
    (h4 : d4 < 256) (h6 : d6 < 256) (h7 : d7 < 256)
    (hP : P = d4 + ((d5 &&& 0xF0) <<< 4)) (hPlt : P < 256)
    (hFirst : d5 &&& PROG_BLOCKFLAG_FIRST ≠ 0)
    (hK : K = (d7 <<< 8) ||| d6) :
    (usbFunctionSetup T E st d0 USBASP_FUNC_WRITEFLASH d2 d3 d4 d5 d6 d7).2.prog_state =
      ProgState.writeflash ∧
    (usbFunctionSetup T E st d0 USBASP_FUNC_WRITEFLASH d2 d3 d4 d5 d6 d7).2.prog_pagesize = P ∧
    (usbFunctionSetup T E st d0 USBASP_FUNC_WRITEFLASH d2 d3 d4 d5 d6 d7).2.prog_pagecounter = P ∧
    (usbFunctionSetup T E st d0 USBASP_FUNC_WRITEFLASH d2 d3 d4 d5 d6 d7).2.prog_nbytes = K ∧
    K < 65536 ∧
    (usbFunctionSetup T E st d0 USBASP_FUNC_WRITEFLASH d2 d3 d4 d5 d6 d7).2.prog_blockflags =
      (d5 &&& 0x0F) := by
  have hx240 : d5 &&& 0xF0 ≤ 240 := Nat.and_le_right
  have hx16 : (d5 &&& 0xF0) <<< 4 = (d5 &&& 0xF0) * 16 := by
    rw [Nat.shiftLeft_eq]
  have hP2 : P = d4 + (d5 &&& 0xF0) * 16 := by rw [hP, hx16]
  have hps : (d4 % 65536 + ((d5 &&& 0xF0) <<< 4)) % 65536 = P := by
    rw [hx16]
    omega
  have hsh : d7 <<< 8 = d7 * 256 := by
    rw [Nat.shiftLeft_eq]
  have hpow : (2 : Nat) ^ 16 = 65536 := by norm_num
  have h1 : d7 <<< 8 < 2 ^ 16 := by rw [hsh]; omega
  have h2 : d6 < 2 ^ 16 := by omega
  have hKlt : K < 65536 := by
    have h3 : (d7 <<< 8) ||| d6 < 2 ^ 16 := Nat.or_lt_two_pow h1 h2
    rw [hK]
    omega
  have hand : (d5 &&& 0x0F) &&& PROG_BLOCKFLAG_FIRST = d5 &&& PROG_BLOCKFLAG_FIRST := by
    rw [Nat.and_assoc,
      show (0x0F &&& PROG_BLOCKFLAG_FIRST : Nat) = PROG_BLOCKFLAG_FIRST from by decide]
  rw [usbFunctionSetup_writeflash]
  refine ⟨rfl, hps, ?_, ?_, hKlt, rfl⟩
  · show (if (d5 &&& 0x0F) &&& PROG_BLOCKFLAG_FIRST ≠ 0 then
      ((d4 % 65536 + ((d5 &&& 0xF0) <<< 4)) % 65536) % 256
      else st.prog_pagecounter) = P
    rw [if_pos (by rw [hand]; exact hFirst), hps]
    omega
  · show ((d7 <<< 8) ||| d6) % 65536 = K
    rw [← hK]
    exact Nat.mod_eq_of_lt hKlt

/-! ### Claims C1, C2, C3: paged flash write sessions -/

/-- The session state reached by a write-chunk call: unchanged on a mode
mismatch, otherwise the state of the flat byte run. -/
theorem usbFunctionWrite_state (st : State) (data : List Nat) :
    (usbFunctionWrite st data).2.1 =
      if st.prog_state ≠ ProgState.writeflash ∧
          st.prog_state ≠ ProgState.writeeeprom then st
      else (writeRun st data).1 := by
  simp only [usbFunctionWrite]
  split <;> rfl

/-- The page-counter invariant `0 < pagecounter ≤ pagesize` is preserved
by any flat byte run when the page size fits the 8-bit counter. -/
theorem writeRun_pc_inv (bs : List Nat) :
    ∀ st : State, 0 < st.prog_pagesize → st.prog_pagesize < 256 →
    0 < st.prog_pagecounter → st.prog_pagecounter ≤ st.prog_pagesize →
    0 < (writeRun st bs).1.prog_pagecounter ∧
      (writeRun st bs).1.prog_pagecounter ≤ (writeRun st bs).1.prog_pagesize ∧
      (writeRun st bs).1.prog_pagesize = st.prog_pagesize := by
  induction bs with
  | nil => intro st _ _ h3 h4; exact ⟨h3, h4, rfl⟩
  | cons b bs ih =>
    intro st h1 h2 h3 h4
    simp only [writeRun]
    have hps' : (writeStep st b).1.prog_pagesize = st.prog_pagesize :=
      writeStep_pagesize st b
    have h5 : 0 < (writeStep st b).1.prog_pagecounter ∧
        (writeStep st b).1.prog_pagecounter ≤ st.prog_pagesize := by
      by_cases hm : st.prog_state = ProgState.writeflash
      · rw [writeStep_pagecounter_flash st b hm (by omega)]
        split <;> omega
      · rw [writeStep_pagecounter_other st b (Or.inl hm)]
        omega
    have hrest := ih (writeStep st b).1 (by rw [hps']; omega) (by rw [hps']; omega)
      h5.1 (by rw [hps']; exact h5.2)
    refine ⟨hrest.1, hrest.2.1, ?_⟩
    rw [hrest.2.2, hps']

/-- C1 (amended): for a WriteFlash session opened with
`FirstBlockOfMultiBlockWrite` set, page size `P` with `0 < P < 256`, and
declared byte count `K` a positive multiple of `P`, writing the `K`
payload bytes in any chunking produces exactly `K / P` page-flush
invocations, at the byte positions `P, 2P, ..., K` — i.e. each one comes
exactly `P` bytes after the previous flush or after session start.  (The
original claim, stated for every `P > 0`, fails for `P ≥ 256` because
`prog_pagecounter` is an 8-bit variable; see the counterexample.) -/
theorem C1_flush_every_page (T : Nat → Nat) (E : Nat) (st : State)
    (d0 d2 d3 d4 d5 d6 d7 P K : Nat)
    (h4 : d4 < 256) (h6 : d6 < 256) (h7 : d7 < 256)
    (hP : P = d4 + ((d5 &&& 0xF0) <<< 4)) (hP0 : 0 < P) (hPlt : P < 256)
    (hFirst : d5 &&& PROG_BLOCKFLAG_FIRST ≠ 0)
    (hK : K = (d7 <<< 8) ||| d6) (hK0 : 0 < K) (hdvd : P ∣ K)
    (chunks : List (List Nat)) (hlen : chunks.flatten.length = K) :
    flushPositions
      (usbFunctionSetup T E st d0 USBASP_FUNC_WRITEFLASH d2 d3 d4 d5 d6 d7).2
      chunks.flatten 1 =
      (List.range (K / P)).map (fun k => (k + 1) * P) ∧
    flushCount (writeSession
      (usbFunctionSetup T E st d0 USBASP_FUNC_WRITEFLASH d2 d3 d4 d5 d6 d7).2
      chunks).2 = K / P := by
  obtain ⟨hst, hps, hpc, hnb, hKlt, hbf⟩ :=
    setup_writeflash_fields T E st d0 d2 d3 d4 d5 d6 d7 P K h4 h6 h7 hP hPlt hFirst hK
  have hmain := flashRun_positions P hP0 hPlt chunks.flatten
    (usbFunctionSetup T E st d0 USBASP_FUNC_WRITEFLASH d2 d3 d4 d5 d6 d7).2
    P 1 hst hps hpc hP0 (Nat.le_refl P) (by rw [hnb]; exact hKlt)
    (by rw [hnb, hlen])
  rw [hnb, hlen] at hmain
  rw [if_neg (by
    rintro ⟨-, -, -, hx⟩
    apply hx
    rw [Nat.mod_self]
    exact Nat.mod_eq_zero_of_dvd hdvd)] at hmain
  rw [List.append_nil, filterMap_multiples P hP0 K] at hmain
  refine ⟨hmain, ?_⟩
  have hsession := writeSession_eq_run chunks
    (usbFunctionSetup T E st d0 USBASP_FUNC_WRITEFLASH d2 d3 d4 d5 d6 d7).2
    (Or.inl hst) (by rw [hnb]; exact hKlt) (by rw [hnb, hlen])
  have h2 : flushCount (writeSession
      (usbFunctionSetup T E st d0 USBASP_FUNC_WRITEFLASH d2 d3 d4 d5 d6 d7).2
      chunks).2 = flushCount (writeRun
      (usbFunctionSetup T E st d0 USBASP_FUNC_WRITEFLASH d2 d3 d4 d5 d6 d7).2
      chunks.flatten).2.1 := by
    rw [hsession]
  rw [h2, flushCount_run chunks.flatten _ 1, hmain]
  simp

/-- C1 witness: a session with `P = 2`, `K = 4`, two 2-byte chunks. -/
theorem C1_flush_every_page_witness :
    flushPositions
      (usbFunctionSetup (fun x => x) 0 state0 0 USBASP_FUNC_WRITEFLASH 0 0 2 1 4 0).2
      ([[10, 11], [12, 13]] : List (List Nat)).flatten 1 =
      (List.range (4 / 2)).map (fun k => (k + 1) * 2) ∧
    flushCount (writeSession
      (usbFunctionSetup (fun x => x) 0 state0 0 USBASP_FUNC_WRITEFLASH 0 0 2 1 4 0).2
      [[10, 11], [12, 13]]).2 = 4 / 2 :=
  C1_flush_every_page (fun x => x) 0 state0 0 0 0 2 1 4 0 2 4
    (by decide) (by decide) (by decide) (by decide) (by decide) (by decide)
    (by decide) (by decide) (by decide) (by decide) [[10, 11], [12, 13]] (by decide)

set_option maxRecDepth 100000 in
/-- C1 counterexample: with `pageSize = 257` (a legal decoded value) and
`K = 257`, the 8-bit page counter starts at `257 % 256 = 1` and the code
flushes on every single byte: 257 flush invocations instead of the
claimed `K / P = 1`. -/
theorem C1_counterexample :
    flushCount (writeSession
      (usbFunctionSetup (fun x => x) 0 state0 0 USBASP_FUNC_WRITEFLASH 0 0 1 17 1 1).2
      (List.replicate 257 [0])).2 = 257 ∧ (257 : Nat) / 257 = 1 := by
  constructor
  · rfl
  · rfl

/-- C2 (amended): for WriteFlash with `0 < pageSize < 256`:
(1) the WriteFlash command with `FirstBlockOfMultiBlockWrite` set
establishes `pageCounter = pageSize`; (2) every write-chunk call
preserves `0 < pageCounter ≤ pageSize`; (3) a page flush triggered by the
counter reaching zero resets `pageCounter` to `pageSize`.  (For
`pageSize ≥ 256` the claim fails: the 8-bit assignment truncates, see the
counterexample; and the forced completion flush of the last block does
not reset the counter.) -/
theorem C2_pagecounter_invariant :
    (∀ (T : Nat → Nat) (E : Nat) (st : State) (d0 d2 d3 d4 d5 d6 d7 P : Nat),
      d4 < 256 → P = d4 + ((d5 &&& 0xF0) <<< 4) → P < 256 →
      d5 &&& PROG_BLOCKFLAG_FIRST ≠ 0 →
      (usbFunctionSetup T E st d0 USBASP_FUNC_WRITEFLASH d2 d3 d4 d5 d6 d7).2.prog_pagecounter
        = P ∧
      (usbFunctionSetup T E st d0 USBASP_FUNC_WRITEFLASH d2 d3 d4 d5 d6 d7).2.prog_pagesize
        = P) ∧
    (∀ (st : State) (data : List Nat),
      0 < st.prog_pagesize → st.prog_pagesize < 256 →
      0 < st.prog_pagecounter → st.prog_pagecounter ≤ st.prog_pagesize →
      0 < (usbFunctionWrite st data).2.1.prog_pagecounter ∧
        (usbFunctionWrite st data).2.1.prog_pagecounter ≤
          (usbFunctionWrite st data).2.1.prog_pagesize) ∧
    (∀ (st : State) (b : Nat), st.prog_state = ProgState.writeflash →
      0 < st.prog_pagesize → st.prog_pagesize < 256 →
      (st.prog_pagecounter + 255) % 256 = 0 →
      (writeStep st b).1.prog_pagecounter = st.prog_pagesize) := by
  refine ⟨?_, ?_, ?_⟩
  · intro T E st d0 d2 d3 d4 d5 d6 d7 P h4 hP hPlt hFirst
    have hx240 : d5 &&& 0xF0 ≤ 240 := Nat.and_le_right
    have hx16 : (d5 &&& 0xF0) <<< 4 = (d5 &&& 0xF0) * 16 := by
      rw [Nat.shiftLeft_eq]
    have hps : (d4 % 65536 + ((d5 &&& 0xF0) <<< 4)) % 65536 = P := by
      rw [hx16]
      omega
    rw [usbFunctionSetup_writeflash]
    refine ⟨?_, hps⟩
    show (if (d5 &&& 0x0F) &&& PROG_BLOCKFLAG_FIRST ≠ 0 then
      ((d4 % 65536 + ((d5 &&& 0xF0) <<< 4)) % 65536) % 256
      else st.prog_pagecounter) = P
    rw [if_pos (by
      rw [Nat.and_assoc,
        show (0x0F &&& PROG_BLOCKFLAG_FIRST : Nat) = PROG_BLOCKFLAG_FIRST from by decide]
      exact hFirst), hps]
    omega
  · intro st data h1 h2 h3 h4
    rw [usbFunctionWrite_state]
    split
    · exact ⟨h3, h4⟩
    · have := writeRun_pc_inv data st h1 h2 h3 h4
      exact ⟨this.1, this.2.1⟩
  · intro st b hm h1 h2 hfl
    rw [writeStep_pagecounter_flash st b hm (by omega), if_pos hfl]
    omega

/-- A concrete mid-session WriteFlash state used to witness C2. -/
def sampleFlashState : State :=
  { state0 with
      prog_state := ProgState.writeflash
      prog_pagesize := 2
      prog_pagecounter := 2
      prog_nbytes := 9 }

/-- A concrete WriteFlash state one byte before a page boundary. -/
def sampleFlashStateLow : State :=
  { state0 with
      prog_state := ProgState.writeflash
      prog_pagesize := 2
      prog_pagecounter := 1
      prog_nbytes := 9 }

/-- C2 witness: establishment with `P = 2`, preservation over a 3-byte
chunk, and the counter-flush reset, all at concrete states. -/
theorem C2_pagecounter_invariant_witness :
    ((usbFunctionSetup (fun x => x) 0 state0 0 USBASP_FUNC_WRITEFLASH 0 0 2 1 4 0).2.prog_pagecounter
      = 2 ∧
    (usbFunctionSetup (fun x => x) 0 state0 0 USBASP_FUNC_WRITEFLASH 0 0 2 1 4 0).2.prog_pagesize
      = 2) ∧
    (0 < (usbFunctionWrite sampleFlashState [5, 6, 7]).2.1.prog_pagecounter ∧
      (usbFunctionWrite sampleFlashState [5, 6, 7]).2.1.prog_pagecounter ≤
        (usbFunctionWrite sampleFlashState [5, 6, 7]).2.1.prog_pagesize) ∧
    (writeStep sampleFlashStateLow 5).1.prog_pagecounter =
      sampleFlashStateLow.prog_pagesize :=
  ⟨C2_pagecounter_invariant.1 (fun x => x) 0 state0 0 0 0 2 1 4 0 2
      (by decide) (by decide) (by decide) (by decide),
    C2_pagecounter_invariant.2.1 sampleFlashState [5, 6, 7]
      (by decide) (by decide) (by decide) (by decide),
    C2_pagecounter_invariant.2.2 sampleFlashStateLow 5
      (by decide) (by decide) (by decide) (by decide)⟩

/-- C2 counterexample: a WriteFlash command with decoded
`pageSize = 256` and the first-block flag set leaves `pageCounter = 0`
(the 8-bit truncation of 256), not `pageCounter = pageSize`, violating
`0 < pageCounter ≤ pageSize` at session start. -/
theorem C2_counterexample :
    (usbFunctionSetup (fun x => x) 0 state0 0 USBASP_FUNC_WRITEFLASH 0 0 0 17 0 1).2.prog_pagesize
      = 256 ∧
    (usbFunctionSetup (fun x => x) 0 state0 0 USBASP_FUNC_WRITEFLASH 0 0 0 17 0 1).2.prog_pagecounter
      = 0 := by
  constructor
  · rfl
  · rfl

/-- C3 (amended): for a WriteFlash session opened with both block flags
set, page size `P` with `0 < P < 256`, and declared byte count `K` not a
multiple of `P`, the session performs exactly `K / P + 1 = ⌈K / P⌉` flush
invocations: counter-triggered ones at `P, 2P, ...` and a final one at
byte `K`, triggered by `remainingBytes` reaching zero while
`pageCounter ≠ pageSize`; the session ends `Idle`.  (As with C1, the
original claim fails for `P ≥ 256`; see the counterexample.) -/
theorem C3_trailing_page_flush (T : Nat → Nat) (E : Nat) (st : State)
    (d0 d2 d3 d4 d5 d6 d7 P K : Nat)
    (h4 : d4 < 256) (h6 : d6 < 256) (h7 : d7 < 256)
    (hP : P = d4 + ((d5 &&& 0xF0) <<< 4)) (hP0 : 0 < P) (hPlt : P < 256)
    (hFirst : d5 &&& PROG_BLOCKFLAG_FIRST ≠ 0)
    (hLast : d5 &&& PROG_BLOCKFLAG_LAST ≠ 0)
    (hK : K = (d7 <<< 8) ||| d6) (hK0 : 0 < K) (hndvd : ¬ P ∣ K)
    (chunks : List (List Nat)) (hlen : chunks.flatten.length = K) :
    flushPositions
      (usbFunctionSetup T E st d0 USBASP_FUNC_WRITEFLASH d2 d3 d4 d5 d6 d7).2
      chunks.flatten 1 =
      (List.range (K / P)).map (fun k => (k + 1) * P) ++ [K] ∧
    flushCount (writeSession
      (usbFunctionSetup T E st d0 USBASP_FUNC_WRITEFLASH d2 d3 d4 d5 d6 d7).2
      chunks).2 = K / P + 1 ∧
    (writeSession
      (usbFunctionSetup T E st d0 USBASP_FUNC_WRITEFLASH d2 d3 d4 d5 d6 d7).2
      chunks).1.prog_state = ProgState.idle := by
  obtain ⟨hst, hps, hpc, hnb, hKlt, hbf⟩ :=
    setup_writeflash_fields T E st d0 d2 d3 d4 d5 d6 d7 P K h4 h6 h7 hP hPlt hFirst hK
  have hmain := flashRun_positions P hP0 hPlt chunks.flatten
    (usbFunctionSetup T E st d0 USBASP_FUNC_WRITEFLASH d2 d3 d4 d5 d6 d7).2
    P 1 hst hps hpc hP0 (Nat.le_refl P) (by rw [hnb]; exact hKlt)
    (by rw [hnb, hlen])
  rw [hnb, hlen, hbf] at hmain
  rw [if_pos ⟨rfl, hK0, by
      rw [Nat.and_assoc,
        show (0x0F &&& PROG_BLOCKFLAG_LAST : Nat) = PROG_BLOCKFLAG_LAST from by decide]
      exact hLast,
    by
      rw [Nat.mod_self]
      intro hx
      exact hndvd (Nat.dvd_of_mod_eq_zero hx)⟩] at hmain
  rw [filterMap_multiples P hP0 K,
    show 1 + K - 1 = K from by omega] at hmain
  have hsession := writeSession_eq_run chunks
    (usbFunctionSetup T E st d0 USBASP_FUNC_WRITEFLASH d2 d3 d4 d5 d6 d7).2
    (Or.inl hst) (by rw [hnb]; exact hKlt) (by rw [hnb, hlen])
  refine ⟨hmain, ?_, ?_⟩
  · have h2 : flushCount (writeSession
        (usbFunctionSetup T E st d0 USBASP_FUNC_WRITEFLASH d2 d3 d4 d5 d6 d7).2
        chunks).2 = flushCount (writeRun
        (usbFunctionSetup T E st d0 USBASP_FUNC_WRITEFLASH d2 d3 d4 d5 d6 d7).2
        chunks.flatten).2.1 := by
      rw [hsession]
    rw [h2, flushCount_run chunks.flatten _ 1, hmain]
    simp
  · have h3 : (writeSession
        (usbFunctionSetup T E st d0 USBASP_FUNC_WRITEFLASH d2 d3 d4 d5 d6 d7).2
        chunks).1 = (writeRun
        (usbFunctionSetup T E st d0 USBASP_FUNC_WRITEFLASH d2 d3 d4 d5 d6 d7).2
        chunks.flatten).1 := by
      rw [hsession]
    rw [h3, writeRun_mode chunks.flatten _ (by rw [hnb]; exact hKlt)
      (by rw [hnb, hlen]), if_pos (by rw [hnb, hlen]; exact ⟨rfl, hK0⟩)]

/-- C3 witness: `P = 2`, `K = 3`, chunks of 2 and 1 bytes: flushes at
bytes 2 and 3, final state Idle. -/
theorem C3_trailing_page_flush_witness :
    flushPositions
      (usbFunctionSetup (fun x => x) 0 state0 0 USBASP_FUNC_WRITEFLASH 0 0 2 3 3 0).2
      ([[9, 9], [9]] : List (List Nat)).flatten 1 =
      (List.range (3 / 2)).map (fun k => (k + 1) * 2) ++ [3] ∧
    flushCount (writeSession
      (usbFunctionSetup (fun x => x) 0 state0 0 USBASP_FUNC_WRITEFLASH 0 0 2 3 3 0).2
      [[9, 9], [9]]).2 = 3 / 2 + 1 ∧
    (writeSession
      (usbFunctionSetup (fun x => x) 0 state0 0 USBASP_FUNC_WRITEFLASH 0 0 2 3 3 0).2
      [[9, 9], [9]]).1.prog_state = ProgState.idle :=
  C3_trailing_page_flush (fun x => x) 0 state0 0 0 0 2 3 3 0 2 3
    (by decide) (by decide) (by decide) (by decide) (by decide) (by decide)
    (by decide) (by decide) (by decide) (by decide) (by decide)
    [[9, 9], [9]] (by decide)

/-- C3 counterexample: with decoded `pageSize = 257`, both block flags
set and `K = 1` (not a multiple of 257, so `⌈K / P⌉ = 1`), the single
byte triggers a counter flush (the 8-bit counter started at 1) and then
the forced completion flush: 2 flush invocations instead of 1. -/
theorem C3_counterexample :
    flushCount (writeSession
      (usbFunctionSetup (fun x => x) 0 state0 0 USBASP_FUNC_WRITEFLASH 0 0 1 19 1 0).2
      [[0]]).2 = 2 ∧ (1 + 257 - 1) / 257 = 1 := by
  constructor
  · rfl
  · rfl

/-! ### Claim C4: the streaming read engine -/

theorem readLoop_out (flash eeprom : Nat → Nat) :
    ∀ (len : Nat) (st : State), st.prog_address + len < 4294967296 →
    (readLoop flash eeprom st len).1 =
      (List.range len).map (fun i =>
        if st.prog_state = ProgState.readflash then flash (st.prog_address + i) % 256
        else eeprom (st.prog_address + i) % 256) := by
  intro len
  induction len with
  | zero => intro st _; rfl
  | succ len ihl =>
    intro st h
    have hx : (st.prog_address + 1) % 4294967296 = st.prog_address + 1 :=
      Nat.mod_eq_of_lt (by omega)
    simp only [readLoop]
    rw [ihl { st with prog_address := (st.prog_address + 1) % 4294967296 }
      (by simp only []; omega)]
    rw [List.range_succ_eq_map, List.map_cons, List.map_map]
    simp only [Nat.add_zero]
    congr 1
    apply List.map_congr_left
    intro i _
    simp only [Function.comp_apply, Nat.succ_eq_add_one, hx]
    rw [show st.prog_address + 1 + i = st.prog_address + (i + 1) from by omega]

theorem readLoop_state (flash eeprom : Nat → Nat) :
    ∀ (len : Nat) (st : State), st.prog_address + len < 4294967296 →
    (readLoop flash eeprom st len).2 =
      { st with prog_address := st.prog_address + len } := by
  intro len
  induction len with
  | zero => intro st _; rfl
  | succ len ihl =>
    intro st h
    have hx : (st.prog_address + 1) % 4294967296 = st.prog_address + 1 :=
      Nat.mod_eq_of_lt (by omega)
    simp only [readLoop]
    rw [ihl { st with prog_address := (st.prog_address + 1) % 4294967296 }
      (by simp only []; omega)]
    simp only [hx]
    congr 1
    omega

/-- Per-call contract of `usbFunctionRead` in a valid read mode with no
32-bit address wrap: returns `len`, emits the `len` bytes read from
`address, address+1, ...` (flash or EEPROM per mode), advances the
address by exactly `len`, goes `Idle` exactly for a short chunk
(`len < 8`), and otherwise keeps the mode. -/
theorem usbFunctionRead_spec (flash eeprom : Nat → Nat) (st : State) (len : Nat)
    (hm : st.prog_state = ProgState.readflash ∨ st.prog_state = ProgState.readeeprom)
    (ha : st.prog_address + len < 4294967296) :
    (usbFunctionRead flash eeprom st len).1 = len ∧
    (usbFunctionRead flash eeprom st len).2.1 =
      (List.range len).map (fun i =>
        if st.prog_state = ProgState.readflash then flash (st.prog_address + i) % 256
        else eeprom (st.prog_address + i) % 256) ∧
    (usbFunctionRead flash eeprom st len).2.2.prog_address = st.prog_address + len ∧
    ((usbFunctionRead flash eeprom st len).2.2.prog_state = ProgState.idle ↔ len < 8) ∧
    (¬ len < 8 → (usbFunctionRead flash eeprom st len).2.2.prog_state = st.prog_state) := by
  have hcond : ¬(st.prog_state ≠ ProgState.readflash ∧
      st.prog_state ≠ ProgState.readeeprom) := by
    rcases hm with h | h <;> simp [h]
  simp only [usbFunctionRead, if_neg hcond]
  rw [readLoop_out flash eeprom len st ha, readLoop_state flash eeprom len st ha]
  refine ⟨by simp, by simp, ?_, ?_, ?_⟩
  · split <;> rfl
  · split <;> rename_i h
    · simp [h]
    · rcases hm with hmm | hmm <;> simp [hmm, h]
  · intro h
    rw [if_neg h]

/-- Session-level contract: chunks of exactly 8 bytes followed by one
final chunk concatenate to the bytes at `addr .. addr + N - 1`. -/
theorem readSession_concat (flash eeprom : Nat → Nat) :
    ∀ (lens : List Nat) (st : State),
    (st.prog_state = ProgState.readflash ∨ st.prog_state = ProgState.readeeprom) →
    st.prog_address + lens.sum < 4294967296 →
    (∀ l ∈ lens.dropLast, l = 8) →
    (readSession flash eeprom st lens).1 =
      (List.range lens.sum).map (fun i =>
        if st.prog_state = ProgState.readflash then flash (st.prog_address + i) % 256
        else eeprom (st.prog_address + i) % 256) := by
  intro lens
  induction lens with
  | nil => intro st _ _ _; simp [readSession]
  | cons l ls ih =>
    intro st hm ha hdrop
    obtain ⟨hret, hout, haddr, hidle, hkeep⟩ := usbFunctionRead_spec flash eeprom st l hm
      (by simp only [List.sum_cons] at ha; omega)
    cases ls with
    | nil =>
      simp only [readSession, hout, List.sum_cons, List.sum_nil, Nat.add_zero,
        List.append_nil]
    | cons l2 ls2 =>
      have hl8 : l = 8 := hdrop l (by simp [List.dropLast_cons₂])
      subst hl8
      have hmode1 : (usbFunctionRead flash eeprom st 8).2.2.prog_state =
          st.prog_state := hkeep (by omega)
      simp only [List.sum_cons] at ha ⊢
      rw [show (readSession flash eeprom st (8 :: l2 :: ls2)).1 =
          (usbFunctionRead flash eeprom st 8).2.1 ++
          (readSession flash eeprom
            (usbFunctionRead flash eeprom st 8).2.2 (l2 :: ls2)).1 from rfl]
      rw [hout]
      rw [ih (usbFunctionRead flash eeprom st 8).2.2
        (by rw [hmode1]; exact hm)
        (by rw [haddr]; simp only [List.sum_cons]; omega)
        (by intro x hx; exact hdrop x (by rw [List.dropLast_cons₂]; exact List.mem_cons_of_mem _ hx))]
      rw [show 8 + (l2 + ls2.sum) = 8 + (l2 :: ls2).sum from by simp [List.sum_cons]]
      rw [List.range_add, List.map_append, List.map_map]
      congr 1
      apply List.map_congr_left
      intro i _
      simp only [Function.comp_apply, hmode1, haddr]
      rw [show st.prog_address + (8 + i) = st.prog_address + 8 + i from by omega]

/-- C4: in a valid read mode (and with the session staying inside the
32-bit address space), each read-chunk call of length `L` returns `L`,
produces the `L` bytes at `address .. address + L - 1` from flash or
EEPROM per mode, advances `address` by exactly `L`, and goes `Idle`
exactly when `L < 8`; and a whole session of 8-byte chunks with one
final chunk concatenates to the `N` requested bytes. -/
theorem C4_read_engine (flash eeprom : Nat → Nat) :
    (∀ (st : State) (len : Nat),
      (st.prog_state = ProgState.readflash ∨ st.prog_state = ProgState.readeeprom) →
      st.prog_address + len < 4294967296 →
      (usbFunctionRead flash eeprom st len).1 = len ∧
      (usbFunctionRead flash eeprom st len).2.1 =
        (List.range len).map (fun i =>
          if st.prog_state = ProgState.readflash then flash (st.prog_address + i) % 256
          else eeprom (st.prog_address + i) % 256) ∧
      (usbFunctionRead flash eeprom st len).2.2.prog_address = st.prog_address + len ∧
      ((usbFunctionRead flash eeprom st len).2.2.prog_state = ProgState.idle ↔ len < 8)) ∧
    (∀ (lens : List Nat) (st : State),
      (st.prog_state = ProgState.readflash ∨ st.prog_state = ProgState.readeeprom) →
      st.prog_address + lens.sum < 4294967296 →
      (∀ l ∈ lens.dropLast, l = 8) →
      (readSession flash eeprom st lens).1 =
        (List.range lens.sum).map (fun i =>
          if st.prog_state = ProgState.readflash then flash (st.prog_address + i) % 256
          else eeprom (st.prog_address + i) % 256)) := by
  constructor
  · intro st len hm ha
    obtain ⟨h1, h2, h3, h4, _⟩ := usbFunctionRead_spec flash eeprom st len hm ha
    exact ⟨h1, h2, h3, h4⟩
  · exact readSession_concat flash eeprom

/-- A concrete open ReadEeprom session at address 0x10 (the spec's
concrete scenario). -/
def sampleReadState : State :=
  { state0 with
      prog_state := ProgState.readeeprom
      prog_address := 16 }

/-- C4 witness: the spec scenario ReadEeprom at 0x10 with chunks of 8
then 2: the first call keeps the mode, the second closes the session,
and the concatenation covers addresses 0x10 .. 0x19. -/
theorem C4_read_engine_witness :
    ((usbFunctionRead (fun a => a + 100) (fun a => a) sampleReadState 8).1 = 8 ∧
    (usbFunctionRead (fun a => a + 100) (fun a => a) sampleReadState 8).2.1 =
      (List.range 8).map (fun i =>
        if sampleReadState.prog_state = ProgState.readflash then
          (fun a => a + 100) (sampleReadState.prog_address + i) % 256
        else (fun a => a) (sampleReadState.prog_address + i) % 256) ∧
    (usbFunctionRead (fun a => a + 100) (fun a => a) sampleReadState 8).2.2.prog_address =
      sampleReadState.prog_address + 8 ∧
    ((usbFunctionRead (fun a => a + 100) (fun a => a) sampleReadState 8).2.2.prog_state =
      ProgState.idle ↔ (8 : Nat) < 8)) ∧
    (readSession (fun a => a + 100) (fun a => a) sampleReadState [8, 2]).1 =
      (List.range ([8, 2] : List Nat).sum).map (fun i =>
        if sampleReadState.prog_state = ProgState.readflash then
          (fun a => a + 100) (sampleReadState.prog_address + i) % 256
        else (fun a => a) (sampleReadState.prog_address + i) % 256) :=
  ⟨(C4_read_engine (fun a => a + 100) (fun a => a)).1 sampleReadState 8
      (Or.inr (by decide)) (by decide),
    (C4_read_engine (fun a => a + 100) (fun a => a)).2 [8, 2] sampleReadState
      (Or.inr (by decide)) (by decide) (by decide)⟩

/-! ### Claims C5-C9 -/

/-- C5: in a valid write mode, a chunk call returns 1 exactly when the
remaining-byte counter reaches zero during the call (and 0 otherwise),
and the mode is back to `Idle` already after the exact byte on which the
counter reached zero, even mid-chunk. -/
theorem C5_write_completion (st : State) (data : List Nat) (n : Nat)
    (hm : st.prog_state = ProgState.writeflash ∨ st.prog_state = ProgState.writeeeprom)
    (hn : st.prog_nbytes = n) (hn16 : n < 65536) (hlen : data.length ≤ 255) :
    ((usbFunctionWrite st data).1 = 1 ↔ 0 < n ∧ n ≤ data.length) ∧
    ((usbFunctionWrite st data).1 = 0 ↔ ¬(0 < n ∧ n ≤ data.length)) ∧
    (0 < n → n ≤ data.length →
      (writeRun st (data.take n)).1.prog_state = ProgState.idle) := by
  have hcond : ¬(st.prog_state ≠ ProgState.writeflash ∧
      st.prog_state ≠ ProgState.writeeeprom) := by
    rcases hm with h | h <;> simp [h]
  have hflag := writeRun_flag data st (by omega) (by omega)
  rw [hn] at hflag
  refine ⟨?_, ?_, ?_⟩
  · simp only [usbFunctionWrite, if_neg hcond]
    cases hb : (writeRun st data).2.2 <;> rw [hb] at hflag <;> simp_all
  · simp only [usbFunctionWrite, if_neg hcond]
    cases hb : (writeRun st data).2.2 <;> rw [hb] at hflag <;> simp_all
  · intro h1 h2
    have hlt : (data.take n).length = n := by
      rw [List.length_take]
      omega
    rw [writeRun_mode (data.take n) st (by omega) (by rw [hlt]; omega)]
    rw [if_pos (by rw [hlt, hn]; exact ⟨rfl, h1⟩)]

/-- A concrete open WriteEeprom session with 2 bytes left. -/
def sampleEepromWriteState : State :=
  { state0 with
      prog_state := ProgState.writeeeprom
      prog_nbytes := 2 }

/-- C5 witness: 2 remaining bytes, a 3-byte chunk: the call reports
completion and the mode is `Idle` right after the second byte. -/
theorem C5_write_completion_witness :
    ((usbFunctionWrite sampleEepromWriteState [1, 2, 3]).1 = 1 ↔
      0 < 2 ∧ 2 ≤ ([1, 2, 3] : List Nat).length) ∧
    ((usbFunctionWrite sampleEepromWriteState [1, 2, 3]).1 = 0 ↔
      ¬(0 < 2 ∧ 2 ≤ ([1, 2, 3] : List Nat).length)) ∧
    (0 < 2 → 2 ≤ ([1, 2, 3] : List Nat).length →
      (writeRun sampleEepromWriteState (([1, 2, 3] : List Nat).take 2)).1.prog_state =
        ProgState.idle) :=
  C5_write_completion sampleEepromWriteState [1, 2, 3] 2
    (Or.inr (by decide)) (by decide) (by decide) (by decide)

/-- C6: the read engine returns 0xFF exactly when its mode precondition
fails (any valid return is the byte count, at most 8), and the write
engine returns 0xFF exactly when its mode precondition fails (any valid
return is the completion flag 0 or 1). -/
theorem C6_invalid_state (flash eeprom : Nat → Nat) :
    (∀ (st : State) (len : Nat), len ≤ 8 →
      ((usbFunctionRead flash eeprom st len).1 = 0xff ↔
        st.prog_state ≠ ProgState.readflash ∧ st.prog_state ≠ ProgState.readeeprom)) ∧
    (∀ (st : State) (data : List Nat),
      ((usbFunctionWrite st data).1 = 0xff ↔
        st.prog_state ≠ ProgState.writeflash ∧ st.prog_state ≠ ProgState.writeeeprom)) := by
  constructor
  · intro st len hlen
    simp only [usbFunctionRead]
    split <;> rename_i h
    · simp [h]
    · simp only [h, iff_false]
      omega
  · intro st data
    simp only [usbFunctionWrite]
    split <;> rename_i h
    · simp [h]
    · split <;> simp [h]

/-- C6 witness: invoking both engines from the `Idle` power-on state
yields the 0xFF error marker. -/
theorem C6_invalid_state_witness :
    ((usbFunctionRead (fun a => a) (fun a => a) state0 8).1 = 0xff ↔
      state0.prog_state ≠ ProgState.readflash ∧
        state0.prog_state ≠ ProgState.readeeprom) ∧
    ((usbFunctionWrite state0 [1]).1 = 0xff ↔
      state0.prog_state ≠ ProgState.writeflash ∧
        state0.prog_state ≠ ProgState.writeeeprom) :=
  ⟨(C6_invalid_state (fun a => a) (fun a => a)).1 state0 8 (by decide),
    (C6_invalid_state (fun a => a) (fun a => a)).2 state0 [1]⟩

/-- C7: the WriteFlash dispatcher decodes the wire page size as
`data[4] + ((data[5] & 0xF0) << 4)` and the block flags as
`data[5] & 0x0F`. -/
theorem C7_pagesize_decode (T : Nat → Nat) (E : Nat) (st : State)
    (d0 d2 d3 d4 d5 d6 d7 : Nat) (h4 : d4 < 256) (h5 : d5 < 256) :
    (usbFunctionSetup T E st d0 USBASP_FUNC_WRITEFLASH d2 d3 d4 d5 d6 d7).2.prog_pagesize =
      d4 + ((d5 &&& 0xF0) <<< 4) ∧
    (usbFunctionSetup T E st d0 USBASP_FUNC_WRITEFLASH d2 d3 d4 d5 d6 d7).2.prog_blockflags =
      d5 &&& 0x0F := by
  rw [usbFunctionSetup_writeflash]
  refine ⟨?_, rfl⟩
  show (d4 % 65536 + ((d5 &&& 0xF0) <<< 4)) % 65536 = d4 + ((d5 &&& 0xF0) <<< 4)
  have hx240 : d5 &&& 0xF0 ≤ 240 := Nat.and_le_right
  have hx16 : (d5 &&& 0xF0) <<< 4 = (d5 &&& 0xF0) * 16 := by rw [Nat.shiftLeft_eq]
  omega

/-- C7 witness: `data[4] = 0x40`, `data[5] = 0x23` decode to
`pageSize = 0x40 + 0x200 = 576` and `blockFlags = 3`. -/
theorem C7_pagesize_decode_witness :
    (usbFunctionSetup (fun x => x) 0 state0 0 USBASP_FUNC_WRITEFLASH 0 0 64 35 0 2).2.prog_pagesize =
      64 + ((35 &&& 0xF0) <<< 4) ∧
    (usbFunctionSetup (fun x => x) 0 state0 0 USBASP_FUNC_WRITEFLASH 0 0 64 35 0 2).2.prog_blockflags =
      35 &&& 0x0F :=
  C7_pagesize_decode (fun x => x) 0 state0 0 0 0 64 35 0 2 (by decide) (by decide)

/-- C8: `SetExtendedAddress(0x01020304)` followed by a WriteFlash command
carrying the inline legacy address 0x9999 leaves `address = 0x01020304`;
in general, while the extended-address mode is active a WriteFlash
command never touches `address`. -/
theorem C8_extended_address_round_trip :
    (usbFunctionSetup (fun x => x) 0
        (usbFunctionSetup (fun x => x) 0 state0 0 USBASP_FUNC_SETLONGADDRESS 4 3 2 1 0 0).2
        0 USBASP_FUNC_WRITEFLASH 0x99 0x99 0 0 0 0).2.prog_address = 0x01020304 ∧
    (∀ (T : Nat → Nat) (E : Nat) (st : State) (d0 d2 d3 d4 d5 d6 d7 : Nat),
      st.prog_address_newmode ≠ 0 →
      (usbFunctionSetup T E st d0 USBASP_FUNC_WRITEFLASH d2 d3 d4 d5 d6 d7).2.prog_address =
        st.prog_address) := by
  constructor
  · rfl
  · intro T E st d0 d2 d3 d4 d5 d6 d7 h
    rw [usbFunctionSetup_writeflash]
    show (if st.prog_address_newmode = 0 then
      ((d3 <<< 8) ||| d2) % 4294967296 else st.prog_address) = st.prog_address
    rw [if_neg h]

/-- A concrete state in extended-address mode. -/
def sampleExtState : State :=
  { state0 with
      prog_address_newmode := 1
      prog_address := 7 }

/-- C8 witness: a WriteFlash command with inline address bytes 0x34 0x12
leaves the extended address 7 untouched. -/
theorem C8_extended_address_round_trip_witness :
    (usbFunctionSetup (fun x => x) 0 sampleExtState 0 USBASP_FUNC_WRITEFLASH
      0x34 0x12 0 0 0 0).2.prog_address = sampleExtState.prog_address :=
  C8_extended_address_round_trip.2 (fun x => x) 0 sampleExtState
    0 0x34 0x12 0 0 0 0 (by decide)

/-- C9: a command descriptor whose opcode matches none of the ten
recognised opcodes is a no-op: the dispatcher returns a zero-length
reply and leaves the whole session state (reply buffer included)
unchanged. -/
theorem C9_unknown_opcode_noop (T : Nat → Nat) (E : Nat) (st : State)
    (d0 d1 d2 d3 d4 d5 d6 d7 : Nat)
    (h1 : d1 ≠ USBASP_FUNC_CONNECT) (h2 : d1 ≠ USBASP_FUNC_DISCONNECT)
    (h3 : d1 ≠ USBASP_FUNC_TRANSMIT) (h4 : d1 ≠ USBASP_FUNC_READFLASH)
    (h5 : d1 ≠ USBASP_FUNC_ENABLEPROG) (h6 : d1 ≠ USBASP_FUNC_WRITEFLASH)
    (h7 : d1 ≠ USBASP_FUNC_READEEPROM) (h8 : d1 ≠ USBASP_FUNC_WRITEEEPROM)
    (h9 : d1 ≠ USBASP_FUNC_SETLONGADDRESS) (h10 : d1 ≠ USBASP_FUNC_SETISPSCK) :
    usbFunctionSetup T E st d0 d1 d2 d3 d4 d5 d6 d7 = (0, st) := by
  simp only [usbFunctionSetup, if_neg h1, if_neg h2, if_neg h3, if_neg h4,
    if_neg h5, if_neg h6, if_neg h7, if_neg h8, if_neg h9, if_neg h10]

/-- C9 witness: opcode 42 is unrecognised and leaves the power-on state
untouched with an empty reply. -/
theorem C9_unknown_opcode_noop_witness :
    usbFunctionSetup (fun x => x) 0 state0 0 42 1 2 3 4 5 6 = (0, state0) :=
  C9_unknown_opcode_noop (fun x => x) 0 state0 0 42 1 2 3 4 5 6
    (by decide) (by decide) (by decide) (by decide) (by decide) (by decide)
    (by decide) (by decide) (by decide) (by decide)

/-! ### Claim C10: overrunning the byte counter -/

/-- A run that starts outside WriteFlash mode and never exhausts the
byte counter is a plain sequence of EEPROM writes at consecutive
addresses, and keeps the mode. -/
theorem writeRun_eeprom_trace (bs : List Nat) :
    ∀ st : State, st.prog_state ≠ ProgState.writeflash →
    bs.length < st.prog_nbytes → st.prog_nbytes < 65536 →
    (writeRun st bs).2.1 = writeEEPROMTrace st.prog_address bs ∧
    (writeRun st bs).1.prog_state = st.prog_state := by
  induction bs with
  | nil => intro st _ _ _; exact ⟨rfl, rfl⟩
  | cons b bs ih =>
    intro st hm hlen hn
    simp only [List.length_cons] at hlen
    have hnz : (st.prog_nbytes + 65535) % 65536 ≠ 0 := by omega
    have hmode1 : (writeStep st b).1.prog_state = st.prog_state := by
      rw [writeStep_state, if_neg hnz]
    have hrest := ih (writeStep st b).1
      (by rw [hmode1]; exact hm)
      (by rw [writeStep_nbytes]; omega)
      (by rw [writeStep_nbytes]; omega)
    simp only [writeRun, writeEEPROMTrace]
    rw [writeStep_events_eeprom st b hm, if_neg (fun hx => hnz hx.1)]
    rw [hrest.1, writeStep_address]
    exact ⟨rfl, by rw [hrest.2, hmode1]⟩

/-- C10: when a chunk in WriteFlash or WriteEeprom mode is longer than
the remaining byte count `n`, processing does not stop: the 16-bit
counter wraps from 0 to 65535 on byte `n + 1`, every byte after the
`n`-th is written through the EEPROM path (the mode is `Idle` by then,
and the per-byte branch only distinguishes WriteFlash from everything
else), and the address keeps advancing for every byte of the chunk. -/
theorem C10_counter_wraparound (st : State) (data : List Nat) (n : Nat)
    (hm : st.prog_state = ProgState.writeflash ∨
      st.prog_state = ProgState.writeeeprom)
    (hn : st.prog_nbytes = n) (hn0 : 0 < n) (hn16 : n < 65536)
    (hlen : n < data.length) (hlen255 : data.length ≤ 255)
    (ha : st.prog_address < 4294967296) :
    (writeRun st (data.take (n + 1))).1.prog_nbytes = 65535 ∧
    (writeRun st data).1.prog_nbytes = n + 65536 - data.length ∧
    (writeRun (writeRun st (data.take n)).1 (data.drop n)).2.1 =
      writeEEPROMTrace ((st.prog_address + n) % 4294967296) (data.drop n) ∧
    (writeRun st data).1.prog_address =
      (st.prog_address + data.length) % 4294967296 := by
  have htk1 : (data.take (n + 1)).length = n + 1 := by
    rw [List.length_take]
    omega
  have htk : (data.take n).length = n := by
    rw [List.length_take]
    omega
  refine ⟨?_, ?_, ?_, ?_⟩
  · have hrn := writeRun_nbytes (data.take (n + 1)) st (by omega)
    rw [htk1, hn] at hrn
    rw [hrn]
    omega
  · have hrn := writeRun_nbytes data st (by omega)
    rw [hn] at hrn
    rw [hrn]
    omega
  · have hmode0 : (writeRun st (data.take n)).1.prog_state = ProgState.idle := by
      rw [writeRun_mode (data.take n) st (by omega) (by rw [htk]; omega)]
      rw [if_pos (by rw [htk, hn]; exact ⟨rfl, hn0⟩)]
    have hnb0 : (writeRun st (data.take n)).1.prog_nbytes = 0 := by
      have hrn := writeRun_nbytes (data.take n) st (by omega)
      rw [htk, hn] at hrn
      rw [hrn]
      omega
    have haddr0 : (writeRun st (data.take n)).1.prog_address =
        (st.prog_address + n) % 4294967296 := by
      have hra := writeRun_address (data.take n) st ha
      rw [htk] at hra
      exact hra
    obtain ⟨hd, rest, hrest⟩ : ∃ hd rest, data.drop n = hd :: rest :=
      ⟨data.get ⟨n, hlen⟩, data.drop (n + 1), List.drop_eq_getElem_cons hlen⟩
    have hrl : rest.length = data.length - n - 1 := by
      have hc := congrArg List.length hrest
      simp only [List.length_drop, List.length_cons] at hc
      omega
    rw [hrest]
    simp only [writeRun, writeEEPROMTrace]
    have hni : (writeRun st (data.take n)).1.prog_state ≠ ProgState.writeflash := by
      rw [hmode0]
      decide
    rw [writeStep_events_eeprom (writeRun st (data.take n)).1 hd hni,
      if_neg (fun hx => absurd hx.1 (by rw [hnb0]; omega))]
    have hmode1 : (writeStep (writeRun st (data.take n)).1 hd).1.prog_state =
        ProgState.idle := by
      rw [writeStep_state]
      split
      · rfl
      · exact hmode0
    have htr := writeRun_eeprom_trace rest (writeStep (writeRun st (data.take n)).1 hd).1
      (by rw [hmode1]; decide)
      (by rw [writeStep_nbytes, hnb0]; omega)
      (by rw [writeStep_nbytes, hnb0]; omega)
    rw [htr.1, writeStep_address, haddr0]
    exact rfl
  · exact writeRun_address data st ha

/-- A concrete WriteFlash session with a single remaining byte, about to
be overrun. -/
def sampleOverrunState : State :=
  { state0 with
      prog_state := ProgState.writeflash
      prog_nbytes := 1 }

/-- C10 witness: one remaining byte, a two-byte chunk: the counter wraps
to 65535, the second byte goes through the EEPROM path at address 1, and
the address ends at 2. -/
theorem C10_counter_wraparound_witness :
    (writeRun sampleOverrunState (([7, 9] : List Nat).take (1 + 1))).1.prog_nbytes = 65535 ∧
    (writeRun sampleOverrunState [7, 9]).1.prog_nbytes =
      1 + 65536 - ([7, 9] : List Nat).length ∧
    (writeRun (writeRun sampleOverrunState (([7, 9] : List Nat).take 1)).1
        (([7, 9] : List Nat).drop 1)).2.1 =
      writeEEPROMTrace ((sampleOverrunState.prog_address + 1) % 4294967296)
        (([7, 9] : List Nat).drop 1) ∧
    (writeRun sampleOverrunState [7, 9]).1.prog_address =
      (sampleOverrunState.prog_address + ([7, 9] : List Nat).length) % 4294967296 :=
  C10_counter_wraparound sampleOverrunState [7, 9] 1
    (Or.inl (by decide)) (by decide) (by decide) (by decide) (by decide)
    (by decide) (by decide)

end USBasp
